import Mathlib

/-!
Verification of the pixel-accurate collision-shape synthesis pipeline of the
browser physics toy (source of authority: `src/public/game.js`).

Conventions of the shallow embedding:
* A canvas / `ImageData` is a width, a height and the flat RGBA byte array
  (`data[(y*w+x)*4 + c]`, channel order R,G,B,A), exactly as in the browser.
* JavaScript numbers are embedded as `ℚ` (all arithmetic the claims touch is
  exact: integer pixel values, halves, and quotients of small integers; every
  comparison of a Euclidean distance `Math.sqrt s` against a nonnegative bound
  `t` is embedded as the equivalent comparison of `s` against `t^2`, which has
  the same truth value since both sides are nonnegative and squaring is
  strictly monotone there).
* Loops that mutate arrays become folds / fuelled structural recursions; the
  fuel chosen is provably larger than the number of iterations the source
  can perform, except for the Moore boundary walk, whose termination is
  itself under scrutiny (there the fuel bound `8*w*h+1` exceeds the number of
  distinct `(x, y, dir)` states, so every terminating run of the source is
  reproduced exactly, and fuel exhaustion happens precisely on the inputs
  where the source loops forever).
-/

namespace Curiosity

/-- Flat RGBA image data, as returned by `CanvasRenderingContext2D.getImageData`:
`data` has the byte at flat position `(y * width + x) * 4 + channel`.
Out-of-range reads use `List.getD` with default 0 (the source never reads out
of range inside the guards the claims are about). -/
structure ImageData where
  width : ℕ
  height : ℕ
  data : List ℕ
deriving Repr, DecidableEq

/-- `this.alphaThreshold` of the `src/public/game.js` variant (line 20). -/
def alphaThreshold : ℕ := 128

/-- `isNonWhitePixel(imageData, x, y, width, height)` (game.js 1086-1092):
out-of-bounds coordinates are not solid, otherwise a pixel is solid exactly
when its alpha byte exceeds `alphaThreshold`.  Note the name is historical:
despite it, the function looks only at the alpha channel. -/
def isNonWhitePixel (img : ImageData) (x y width height : ℤ) : Bool :=
  if x < 0 ∨ y < 0 ∨ width ≤ x ∨ height ≤ y then false
  else decide (alphaThreshold < img.data.getD ((y * width + x) * 4 + 3).toNat 0)

/-- A 1×1 all-white fully-opaque image. -/
def img11W : ImageData := ⟨1, 1, [255, 255, 255, 255]⟩

/-! ## Grid-cell collision synthesizer (`createAccurateImageBody`, game.js 906-939) -/

/-- `const gridSize = 4` (game.js 908). -/
def gridSize : ℕ := 4

/-- The loop-start coordinates `0, gridSize, 2*gridSize, ...` below `n`
(the `for (let g = 0; g < n; g += gridSize)` loops of game.js 911-912). -/
def cellStarts (n : ℕ) : List ℕ :=
  (List.range ((n + gridSize - 1) / gridSize)).map (· * gridSize)

/-- The pixel coordinates scanned for the cell at `(gx, gy)`:
`py` from `gy` to `min (gy+gridSize) h`, `px` from `gx` to `min (gx+gridSize) w`
(game.js 916-917). -/
def cellPixels (w h gx gy : ℕ) : List (ℕ × ℕ) :=
  (List.range (min (gy + gridSize) h - gy)).flatMap (fun dy =>
    (List.range (min (gx + gridSize) w - gx)).map (fun dx => (gx + dx, gy + dy)))

/-- Count of solid pixels in the cell at `(gx, gy)` (game.js 918-922).
The source calls `isNonWhitePixel(imageData, px, py, imageData.width)` leaving
`height` undefined, which makes the `y >= height` test always false; since the
loop keeps `py < imageData.height` anyway, passing the real height is
equivalent. -/
def solidCount (img : ImageData) (gx gy : ℕ) : ℕ :=
  (cellPixels img.width img.height gx gy).countP
    (fun p => isNonWhitePixel img (p.1 : ℤ) (p.2 : ℤ) (img.width : ℤ) (img.height : ℤ))

/-- `totalPx` of the cell at `(gx, gy)` (game.js 926). -/
def totalPx (w h gx gy : ℕ) : ℕ :=
  (min (gy + gridSize) h - gy) * (min (gx + gridSize) w - gx)

/-- One entry of `cellRecords` (game.js 929); the source field `include` is a
Lean keyword and is embedded as `included`. -/
structure CellRecord where
  gx : ℕ
  gy : ℕ
  ratio : ℚ
  included : Bool
deriving Repr, DecidableEq

/-- The record pushed for one grid cell (game.js 913-929):
`ratio = totalPx > 0 ? solidCount / totalPx : 0`,
`include = hasSolid && ratio > 0.70` with `hasSolid` true iff some solid pixel
was seen in the cell. -/
def mkCellRecord (img : ImageData) (gx gy : ℕ) : CellRecord :=
  let sc := solidCount img gx gy
  let tp := totalPx img.width img.height gx gy
  let ratio : ℚ := if 0 < tp then (sc : ℚ) / (tp : ℚ) else 0
  { gx := gx, gy := gy, ratio := ratio,
    included := decide (sc ≠ 0) && decide ((7 : ℚ) / 10 < ratio) }

/-- All cell records in source scan order: `gy` outer, `gx` inner. -/
def cellRecords (img : ImageData) : List CellRecord :=
  (cellStarts img.height).flatMap (fun gy =>
    (cellStarts img.width).map (fun gx => mkCellRecord img gx gy))

/-- The local positions of the parts created for the included cells
(game.js 931-937): `rectX = gx - width/2 + gridSize/2`, likewise `rectY`. -/
def includedCellPositions (img : ImageData) : List (ℚ × ℚ) :=
  ((cellRecords img).filter (fun c => c.included)).map
    (fun c => ((c.gx : ℚ) - (img.width : ℚ) / 2 + (gridSize : ℚ) / 2,
               (c.gy : ℚ) - (img.height : ℚ) / 2 + (gridSize : ℚ) / 2))

/-! ## Collision-mode switch and compound body assembly (game.js 899-997) -/

/-- The detection-mode decision (game.js 899-904): `useAlpha` starts as
`useAlphaForCollision && (isProcessedCanvas || hasTransparency)` and is then
overridden by `forceCollisionMode` being `"alpha"` or `"rgb"`.
`isProcessedCanvas` (an `instanceof HTMLCanvasElement` test) and
`hasTransparency` (`detectTransparency`'s sampling result) are passed in as
booleans. -/
def decideUseAlpha (useAlphaForCollision isProcessedCanvas hasTransparency : Bool)
    (forceCollisionMode : String) : Bool :=
  let u := useAlphaForCollision && (isProcessedCanvas || hasTransparency)
  let u := if forceCollisionMode = "alpha" then true else u
  if forceCollisionMode = "rgb" then false else u

/-- The `this.lastCollisionGrid` debug record (game.js 942-945). -/
structure CollisionGridDebug where
  imageW : ℕ
  imageH : ℕ
  gridSize : ℕ
  useAlpha : Bool
  cells : List CellRecord
deriving Repr, DecidableEq

/-- A Matter.js rigid body as far as the claims are concerned: its local/world
`position`, the positions of its primitive parts, and the `renderOffset`
property the assembler attaches (absent, i.e. `none`, on the fallback
rectangle body). -/
structure MatterBody where
  position : ℚ × ℚ
  parts : List (ℚ × ℚ)
  renderOffset : Option (ℚ × ℚ)

/-- `Matter.Body.create({parts})`: the physics engine computes and reports a
center of mass as the compound body's position.  The engine is external
(spec section 6), so its center-of-mass computation is an abstract parameter
`com`. -/
def bodyCreate (com : List (ℚ × ℚ) → ℚ × ℚ) (parts : List (ℚ × ℚ)) : MatterBody :=
  { position := com parts, parts := parts, renderOffset := none }

/-- `Matter.Body.translate(body, d)`: shifts the body and all its parts. -/
def bodyTranslate (b : MatterBody) (d : ℚ × ℚ) : MatterBody :=
  { b with position := (b.position.1 + d.1, b.position.2 + d.2),
           parts := b.parts.map (fun p => (p.1 + d.1, p.2 + d.2)) }

/-- The geometric center of the included parts (game.js 956-966):
`totalX/parts.length, totalY/parts.length` where the `forEach` accumulates the
coordinate sums. -/
def geometricCenter (img : ImageData) : ℚ × ℚ :=
  (((includedCellPositions img).map Prod.fst).sum /
      ((includedCellPositions img).length : ℚ),
   ((includedCellPositions img).map Prod.snd).sum /
      ((includedCellPositions img).length : ℚ))

/-- The parts after the `setPosition` re-centering pass (game.js 968-973):
every part translated by minus the geometric center. -/
def centeredParts (img : ImageData) : List (ℚ × ℚ) :=
  (includedCellPositions img).map (fun p =>
    (p.1 - (geometricCenter img).1, p.2 - (geometricCenter img).2))

/-- `createAccurateImageBody` (game.js 883-997) from the point where the
scaled `imageData` has been read back: grid synthesis, fallback rectangle on
zero parts, geometric-center computation, re-centering of the parts,
compound creation, center-of-mass normalization and `renderOffset`.
Returns the body together with the `lastCollisionGrid` debug record. -/
def createAccurateImageBody (com : List (ℚ × ℚ) → ℚ × ℚ)
    (useAlphaForCollision isProcessedCanvas hasTransparency : Bool)
    (forceCollisionMode : String) (img : ImageData) :
    MatterBody × CollisionGridDebug :=
  let useAlpha := decideUseAlpha useAlphaForCollision isProcessedCanvas
    hasTransparency forceCollisionMode
  let debug : CollisionGridDebug :=
    ⟨img.width, img.height, gridSize, useAlpha, cellRecords img⟩
  if (includedCellPositions img).isEmpty then
    ({ position := (0, 0), parts := [(0, 0)], renderOffset := none }, debug)
  else
    let compoundBody := bodyCreate com (centeredParts img)
    let comShift := compoundBody.position
    let translated := bodyTranslate compoundBody (-comShift.1, -comShift.2)
    ({ translated with renderOffset := some (geometricCenter img) }, debug)

/-- A 4×4 all-white fully-opaque image: one grid cell, fully solid. -/
def img4W : ImageData := ⟨4, 4, List.replicate 64 255⟩

/-! ## Scoring state machine (`marbleInCup`, game.js 2089-2120) -/

/-- The game-state fields `marbleInCup` touches (initialized at game.js 12-16:
`score = 0`, `targetMarbleCount = 1`, `gameOver = false`, `phase = 'single'`). -/
structure GameState where
  score : ℕ
  targetMarbleCount : ℕ
  gameOver : Bool
  phase : String
deriving Repr, DecidableEq

/-- The constructor's initial state (game.js 12-16). -/
def initialGameState : GameState :=
  { score := 0, targetMarbleCount := 1, gameOver := false, phase := "single" }

/-- `marbleInCup` (game.js 2089-2120) restricted to the game state (the DOM,
audio, confetti and marble-removal side effects do not touch these fields):
an early return when the game is over; on phase `'single'` award 10 points,
enter phase `'final'`, set game over and stop respawns; otherwise do
nothing. -/
def marbleInCup (s : GameState) : GameState :=
  if s.gameOver then s
  else if s.phase = "single" then
    { score := s.score + 10, targetMarbleCount := 0,
      gameOver := true, phase := "final" }
  else s

/-! ## Background keying (`keyWhiteToAlpha`, game.js 194-290) -/

/-- JavaScript `Math.round`: round half toward positive infinity. -/
def jsRound (q : ℚ) : ℤ := ⌊q + 1 / 2⌋

/-- The clamped tolerance `Math.max(0, Math.min(255, tolerance))`
(game.js 195). -/
def clampTol (tolerance : ℚ) : ℚ := max 0 (min 255 tolerance)

/-- RGB triple of the pixel at `(x, y)` read from a flat RGBA array
(the `corner` helper, game.js 209-212). -/
def cornerRGB (d : List ℕ) (w x y : ℕ) : ℚ × ℚ × ℚ :=
  ((d.getD ((y * w + x) * 4) 0 : ℚ),
   (d.getD ((y * w + x) * 4 + 1) 0 : ℚ),
   (d.getD ((y * w + x) * 4 + 2) 0 : ℚ))

/-- The background color estimate `(bgR, bgG, bgB)` from the four corners
(game.js 213-219), each channel `Math.round` of the corner average. -/
def bgColor (img : ImageData) : ℚ × ℚ × ℚ :=
  let c1 := cornerRGB img.data img.width 0 0
  let c2 := cornerRGB img.data img.width (img.width - 1) 0
  let c3 := cornerRGB img.data img.width 0 (img.height - 1)
  let c4 := cornerRGB img.data img.width (img.width - 1) (img.height - 1)
  ((jsRound ((c1.1 + c2.1 + c3.1 + c4.1) / 4) : ℚ),
   (jsRound ((c1.2.1 + c2.2.1 + c3.2.1 + c4.2.1) / 4) : ℚ),
   (jsRound ((c1.2.2 + c2.2.2 + c3.2.2 + c4.2.2) / 4) : ℚ))

/-- `colorTol = Math.max(20, Math.floor(tolerance * 1.25))` (game.js 221). -/
def colorTol (tolerance : ℚ) : ℚ := max 20 ((⌊clampTol tolerance * 5 / 4⌋ : ℤ) : ℚ)

/-- The first-pass per-pixel decision (game.js 223-238) for pixel index `p`:
clear when near-pure-white on all channels, or within `colorTol` Euclidean
RGB distance of the background color and within 30 brightness of the
background brightness.  The distance test `sqrt distSq < colorTol` is embedded
as `distSq < colorTol^2` (both sides nonnegative).  The decision only reads
R, G and B, which the pass never modifies, so reading them from the original
`img.data` is equivalent to the source's in-place read. -/
def makeTransparent (img : ImageData) (tolerance : ℚ) (p : ℕ) : Bool :=
  let thr : ℚ := 255 - clampTol tolerance
  let r : ℚ := img.data.getD (4 * p) 0
  let g : ℚ := img.data.getD (4 * p + 1) 0
  let b : ℚ := img.data.getD (4 * p + 2) 0
  let bg := bgColor img
  let distSq := (r - bg.1) ^ 2 + (g - bg.2.1) ^ 2 + (b - bg.2.2) ^ 2
  let brightness := (r + g + b) / 3
  let bgBrightness := (bg.1 + bg.2.1 + bg.2.2) / 3
  decide ((thr ≤ r ∧ thr ≤ g ∧ thr ≤ b) ∨
    (distSq < colorTol tolerance ^ 2 ∧ |brightness - bgBrightness| < 30))

/-- Clear the alpha byte of pixel index `p` (`data[i + 3] = 0`). -/
def setAlpha0 (d : List ℕ) (p : ℕ) : List ℕ := d.set (4 * p + 3) 0

/-- The first pass over all pixels (game.js 223-243). -/
def keyPass1 (img : ImageData) (tolerance : ℚ) : List ℕ :=
  (List.range (img.width * img.height)).foldl
    (fun d p => if makeTransparent img tolerance p then setAlpha0 d p else d)
    img.data

/-- `isBackgroundLike` (game.js 248-260) over the current array `d`: already
cleared alpha, or near-white by the looser brightness/chroma test, or within
`colorTol` of the background color (distance again compared squared). -/
def isBackgroundLike (img : ImageData) (tolerance : ℚ) (d : List ℕ)
    (x y : ℤ) : Bool :=
  let i := ((y * (img.width : ℤ) + x) * 4).toNat
  let a := d.getD (i + 3) 0
  if a = 0 then true
  else
    let r : ℚ := d.getD i 0
    let g : ℚ := d.getD (i + 1) 0
    let b : ℚ := d.getD (i + 2) 0
    let maxC := max r (max g b)
    let minC := min r (min g b)
    let brightness := (r + g + b) / 3
    let chroma := maxC - minC
    let bg := bgColor img
    let distSq := (r - bg.1) ^ 2 + (g - bg.2.1) ^ 2 + (b - bg.2.2) ^ 2
    decide ((240 < brightness ∧ chroma < 25) ∨ distSq < colorTol tolerance ^ 2)

/-- The border seed queue (game.js 264-272).  The source pushes all seeds and
then pops from the end of the array; this embedding pops from the head, so the
seed list is reversed to preserve the exact processing order. -/
def floodSeeds (w h : ℕ) : List (ℤ × ℤ) :=
  ((List.range w).flatMap (fun x => [((x : ℤ), 0), ((x : ℤ), (h : ℤ) - 1)]) ++
   (List.range h).flatMap (fun y => [((0 : ℤ), (y : ℤ)), ((w : ℤ) - 1, (y : ℤ))])).reverse

/-- The flood-fill loop (game.js 273-286): pop a coordinate; skip it when out
of bounds or already visited; otherwise mark it visited and, when it is
background-like, clear its alpha and push its four neighbours.  The source
pushes `[x+1], [x-1], [x,y+1], [x,y-1]` and pops from the end, so the head
order here is `(x,y-1), (x,y+1), (x-1,y), (x+1,y)`.  `fuel` only bounds the
recursion; `floodFuel` below strictly exceeds the number of pops the source
can perform. -/
def floodLoop (img : ImageData) (tolerance : ℚ) :
    ℕ → List ℕ → List (ℤ × ℤ) → List Bool → List ℕ
  | 0, d, _, _ => d
  | _ + 1, d, [], _ => d
  | fuel + 1, d, (x, y) :: q, visited =>
    if x < 0 ∨ y < 0 ∨ (img.width : ℤ) ≤ x ∨ (img.height : ℤ) ≤ y then
      floodLoop img tolerance fuel d q visited
    else if visited.getD ((y * (img.width : ℤ) + x).toNat) false then
      floodLoop img tolerance fuel d q visited
    else if isBackgroundLike img tolerance d x y then
      floodLoop img tolerance fuel
        (d.set ((y * (img.width : ℤ) + x).toNat * 4 + 3) 0)
        ((x, y - 1) :: (x, y + 1) :: (x - 1, y) :: (x + 1, y) :: q)
        (visited.set ((y * (img.width : ℤ) + x).toNat) true)
    else
      floodLoop img tolerance fuel d q
        (visited.set ((y * (img.width : ℤ) + x).toNat) true)

/-- Fuel strictly larger than the number of pops the source loop can perform:
each pop removes one queue element, at most `2w + 2h` seeds exist, and each of
the at most `w*h` visit-markings pushes four neighbours. -/
def floodFuel (w h : ℕ) : ℕ := 2 * w + 2 * h + 4 * w * h + 1

/-- `keyWhiteToAlpha(image, {tolerance})` (game.js 194-290): same-size canvas,
first near-white / near-background pass, then border flood fill; only alpha
bytes are ever written. -/
def keyWhiteToAlpha (img : ImageData) (tolerance : ℚ) : ImageData :=
  { width := img.width, height := img.height,
    data := floodLoop img tolerance (floodFuel img.width img.height)
      (keyPass1 img tolerance) (floodSeeds img.width img.height)
      (List.replicate (img.width * img.height) false) }

/-! ## Douglas-Peucker simplification (`douglasPeucker`, game.js 1277-1335) -/

/-- `pointToLineDistance` (game.js 1307-1335), embedded as the squared
distance: the source returns `Math.sqrt` of this value and only ever compares
it against nonnegative bounds, so comparing squares is equivalent.  The
`param < 0` / `param > 1` clamping of the projection is verbatim. -/
def pointToLineDistanceSq (point lineStart lineEnd : ℚ × ℚ) : ℚ :=
  let A := point.1 - lineStart.1
  let B := point.2 - lineStart.2
  let C := lineEnd.1 - lineStart.1
  let D := lineEnd.2 - lineStart.2
  let dot := A * C + B * D
  let lenSq := C * C + D * D
  if lenSq = 0 then A * A + B * B
  else
    let param := dot / lenSq
    let xx := if param < 0 then lineStart.1
      else if 1 < param then lineEnd.1 else lineStart.1 + param * C
    let yy := if param < 0 then lineStart.2
      else if 1 < param then lineEnd.2 else lineStart.2 + param * D
    (point.1 - xx) ^ 2 + (point.2 - yy) ^ 2

/-- The `for` loop of game.js 1284-1292: scan the listed indices keeping the
strictly largest distance and its index, starting from `(0, 0)`. -/
def maxDistLoop (f : ℕ → ℚ) : List ℕ → ℚ × ℕ → ℚ × ℕ
  | [], acc => acc
  | i :: is, acc => maxDistLoop f is (if acc.1 < f i then (f i, i) else acc)

/-- The `(maxDistance, maxIndex)` pair of one `douglasPeucker` invocation
(game.js 1281-1292).  Fuel note for the recursion below: each recursive
call's list is strictly shorter than its caller's whenever `maxIndex ≥ 1`,
which holds whenever the recursion branch is taken with a nonnegative
tolerance (a distance strictly above a nonnegative tolerance is positive, so
the index was updated); `points.length` is therefore always enough fuel for
the tolerances the source ever passes.  (With a negative tolerance and
all-zero distances the source recurses on `points.slice(0)` forever; there
fuel exhaustion returns the list unchanged.) -/
def dpSplit (dist : ℚ × ℚ → ℚ × ℚ → ℚ × ℚ → ℚ)
    (points : List (ℚ × ℚ)) : ℚ × ℕ :=
  maxDistLoop (fun i => dist (points.getD i (0, 0)) (points.getD 0 (0, 0))
      (points.getD (points.length - 1) (0, 0)))
    ((List.range (points.length - 2)).map (· + 1)) (0, 0)

/-- The recursive body of `douglasPeucker` (game.js 1277-1305): return short
lists unchanged; if the maximum distance exceeds the tolerance, recurse on
`points.slice(0, maxIndex+1)` and `points.slice(maxIndex)` and join them
dropping the duplicated split point; otherwise collapse to the two
endpoints. -/
def douglasPeuckerAux (dist : ℚ × ℚ → ℚ × ℚ → ℚ × ℚ → ℚ) :
    ℕ → List (ℚ × ℚ) → ℚ → List (ℚ × ℚ)
  | 0, points, _ => points
  | fuel + 1, points, tolerance =>
    if points.length ≤ 2 then points
    else if tolerance < (dpSplit dist points).1 then
      (douglasPeuckerAux dist fuel (points.take ((dpSplit dist points).2 + 1))
          tolerance).dropLast ++
        douglasPeuckerAux dist fuel (points.drop (dpSplit dist points).2)
          tolerance
    else [points.getD 0 (0, 0), points.getD (points.length - 1) (0, 0)]

/-- `douglasPeucker` at its natural fuel. -/
def douglasPeucker (dist : ℚ × ℚ → ℚ × ℚ → ℚ × ℚ → ℚ)
    (points : List (ℚ × ℚ)) (tolerance : ℚ) : List (ℚ × ℚ) :=
  douglasPeuckerAux dist points.length points tolerance

/-! ## Moore-neighborhood boundary walk (`mooreNeighborhoodTrace`,
game.js 1385-1427) and the contour tracer (`traceVerticesFromCanvas`,
game.js 1157-1214) -/

/-- The `moves` table (game.js 1391-1394): directions 0..7 are
N, NE, E, SE, S, SW, W, NW. -/
def mooreMoves : List (ℤ × ℤ) :=
  [(0, -1), (1, -1), (1, 0), (1, 1), (0, 1), (-1, 1), (-1, 0), (-1, -1)]

/-- One step of the walk (game.js 1401-1417): starting one past the backtrack
direction `(dir + 4) % 8`, scan the 8 neighbours clockwise and move to the
first solid one; `none` when no neighbour is solid (the `!foundNext`
safeguard). -/
def mooreStep (img : ImageData) (w h : ℕ) (x y : ℤ) (dir : ℕ) :
    Option (ℤ × ℤ × ℕ) :=
  (List.range 8).findSome? (fun i =>
    if isNonWhitePixel img (x + (mooreMoves.getD ((dir + 4 + i + 1) % 8) (0, 0)).1)
        (y + (mooreMoves.getD ((dir + 4 + i + 1) % 8) (0, 0)).2) (w : ℤ) (h : ℤ) then
      some (x + (mooreMoves.getD ((dir + 4 + i + 1) % 8) (0, 0)).1,
            y + (mooreMoves.getD ((dir + 4 + i + 1) % 8) (0, 0)).2,
            (dir + 4 + i + 1) % 8)
    else none)

/-- The `do ... while (x !== startX || y !== startY)` loop (game.js 1398-1424):
push the current position, step, stop on no neighbour or on returning to the
start.  The boolean records whether the loop exited by its own conditions
(`true`) or by fuel exhaustion (`false`); the source has no fuel and loops
forever exactly when every fuel value returns `false`. -/
def mooreLoop (img : ImageData) (w h : ℕ) (sx sy : ℤ) :
    ℕ → ℤ → ℤ → ℕ → List (ℤ × ℤ) → List (ℤ × ℤ) × Bool
  | 0, _, _, _, acc => (acc.reverse, false)
  | fuel + 1, x, y, dir, acc =>
    match mooreStep img w h x y dir with
    | none => (((x, y) :: acc).reverse, true)
    | some (nx, ny, nd) =>
      if nx = sx ∧ ny = sy then (((x, y) :: acc).reverse, true)
      else mooreLoop img w h sx sy fuel nx ny nd ((x, y) :: acc)

/-- Fuel exceeding the number of distinct `(x, y, dir)` states inside the
image: a terminating run of the source never repeats a state (the walk is
deterministic, so a repeated state would loop forever), hence finishes within
this bound and is reproduced exactly. -/
def mooreFuel (w h : ℕ) : ℕ := 8 * w * h + 1

/-- `mooreNeighborhoodTrace(imageData, width, height, startX, startY)`
(game.js 1385-1427), at the fuel that reproduces every terminating run. -/
def mooreNeighborhoodTrace (img : ImageData) (w h : ℕ) (sx sy : ℤ) :
    List (ℤ × ℤ) :=
  (mooreLoop img w h sx sy (mooreFuel w h) sx sy 0 []).1

/-- The source loop terminates on the given input: some fuel makes the walk
exit by its own exit conditions. -/
def mooreTraceReturns (img : ImageData) (w h : ℕ) (sx sy : ℤ) : Prop :=
  ∃ fuel, (mooreLoop img w h sx sy fuel sx sy 0 []).2 = true

/-- All pixel coordinates in row-major order (y outer, x inner), filtered to
the solid ones — the scan order of both passes of game.js 1163-1188. -/
def solidCoords (img : ImageData) : List (ℕ × ℕ) :=
  ((List.range img.height).flatMap (fun y =>
    (List.range img.width).map (fun x => (x, y)))).filter
    (fun p => isNonWhitePixel img (p.1 : ℤ) (p.2 : ℤ) (img.width : ℤ)
      (img.height : ℤ))

/-- `minX` of the solid bounding box (init `width`, game.js 1163-1173). -/
def traceMinX (img : ImageData) : ℤ :=
  ((solidCoords img).map (fun p => (p.1 : ℤ))).foldl min (img.width : ℤ)

/-- `maxX` of the solid bounding box (init `-1`). -/
def traceMaxX (img : ImageData) : ℤ :=
  ((solidCoords img).map (fun p => (p.1 : ℤ))).foldl max (-1)

/-- `minY` of the solid bounding box (init `height`). -/
def traceMinY (img : ImageData) : ℤ :=
  ((solidCoords img).map (fun p => (p.2 : ℤ))).foldl min (img.height : ℤ)

/-- `maxY` of the solid bounding box (init `-1`). -/
def traceMaxY (img : ImageData) : ℤ :=
  ((solidCoords img).map (fun p => (p.2 : ℤ))).foldl max (-1)

/-- `centerX = minX + (maxX - minX) / 2`, `centerY` likewise
(game.js 1174-1175). -/
def traceCenter (img : ImageData) : ℚ × ℚ :=
  (((traceMinX img : ℚ)) + ((traceMaxX img : ℚ) - (traceMinX img : ℚ)) / 2,
   ((traceMinY img : ℚ)) + ((traceMaxY img : ℚ) - (traceMinY img : ℚ)) / 2)

/-- `createBoundingBoxVertices(width, height, centerX, centerY)`
(game.js 1375-1383). -/
def createBoundingBoxVertices (width height : ℕ) (cx cy : ℚ) :
    List (ℚ × ℚ) :=
  [(0 - cx, 0 - cy), ((width : ℚ) - cx, 0 - cy),
   ((width : ℚ) - cx, (height : ℚ) - cy), (0 - cx, (height : ℚ) - cy)]

/-- `traceVerticesFromCanvas(canvas)` (game.js 1157-1214): bounding-box
fallback when no solid pixel exists or the traced contour has fewer than 3
points; otherwise the contour, re-expressed relative to the bounding-box
center, simplified by Douglas-Peucker with tolerance 2.0 (embedded as the
squared tolerance 4 against the squared distance). -/
def traceVerticesFromCanvas (img : ImageData) : List (ℚ × ℚ) :=
  match (solidCoords img).head? with
  | none => createBoundingBoxVertices img.width img.height (traceCenter img).1
      (traceCenter img).2
  | some s =>
    if (mooreNeighborhoodTrace img img.width img.height (s.1 : ℤ)
        (s.2 : ℤ)).length < 3 then
      createBoundingBoxVertices img.width img.height (traceCenter img).1
        (traceCenter img).2
    else
      douglasPeucker pointToLineDistanceSq
        ((mooreNeighborhoodTrace img img.width img.height (s.1 : ℤ)
            (s.2 : ℤ)).map
          (fun p => ((p.1 : ℚ) - (traceCenter img).1,
                     (p.2 : ℚ) - (traceCenter img).2)))
        4

/-- A 3×1 image with all three pixels fully opaque (alpha 255): the traced
contour is `[(0,0), (1,0), (2,0), (1,0)]`, which is collinear, so
Douglas-Peucker collapses it to its two endpoints. -/
def img31 : ImageData :=
  ⟨3, 1, [10, 10, 10, 255, 10, 10, 10, 255, 10, 10, 10, 255]⟩

/-- A 3×1 image whose first two pixels are opaque and whose third is fully
transparent: starting the Moore walk at the non-solid pixel `(2, 0)` makes it
cycle forever between `(0, 0)` and `(1, 0)` without ever revisiting the
start. -/
def img31s : ImageData :=
  ⟨3, 1, [10, 10, 10, 255, 10, 10, 10, 255, 10, 10, 10, 0]⟩

/-! ## Theorems -/

/-- C8: out-of-bounds coordinates are never solid, and in-bounds coordinates
are solid exactly when the pixel's alpha value exceeds the configured
threshold. -/
theorem isNonWhitePixel_spec (img : ImageData) (x y width height : ℤ) :
    ((x < 0 ∨ y < 0 ∨ width ≤ x ∨ height ≤ y) →
      isNonWhitePixel img x y width height = false) ∧
    (0 ≤ x → 0 ≤ y → x < width → y < height →
      (isNonWhitePixel img x y width height = true ↔
        alphaThreshold < img.data.getD ((y * width + x) * 4 + 3).toNat 0)) := by
  constructor
  · intro h
    simp [isNonWhitePixel, h]
  · intro hx hy hxw hyh
    have hguard : ¬(x < 0 ∨ y < 0 ∨ width ≤ x ∨ height ≤ y) := by
      push_neg
      exact ⟨by omega, by omega, by omega, by omega⟩
    simp [isNonWhitePixel, hguard]

/-- Witness for C8 at concrete inputs: `(-1, 0)` is out of bounds and not
solid; `(0, 0)` is in bounds and solid because its alpha 255 exceeds 128. -/
theorem isNonWhitePixel_spec_witness :
    isNonWhitePixel img11W (-1) 0 1 1 = false ∧
      (isNonWhitePixel img11W 0 0 1 1 = true ↔
        alphaThreshold < img11W.data.getD (((0 : ℤ) * 1 + 0) * 4 + 3).toNat 0) :=
  ⟨(isNonWhitePixel_spec img11W (-1) 0 1 1).1 (Or.inl (by norm_num)),
   (isNonWhitePixel_spec img11W 0 0 1 1).2 (by norm_num) (by norm_num)
     (by norm_num) (by norm_num)⟩

/-- C1: with at least one included cell, the assembler computes the geometric
center as the arithmetic mean of the part positions, translates every part by
minus that center, translates the whole compound by minus the engine-reported
center of mass (leaving the body's center of mass, i.e. its position, exactly
at the local origin), and stores `renderOffset = geometricCenter`. -/
theorem createAccurateImageBody_centers (com : List (ℚ × ℚ) → ℚ × ℚ)
    (u i t : Bool) (m : String) (img : ImageData)
    (h : includedCellPositions img ≠ []) :
    (createAccurateImageBody com u i t m img).1.position = (0, 0) ∧
    (createAccurateImageBody com u i t m img).1.renderOffset =
      some (((includedCellPositions img).map Prod.fst).sum /
              ((includedCellPositions img).length : ℚ),
            ((includedCellPositions img).map Prod.snd).sum /
              ((includedCellPositions img).length : ℚ)) ∧
    (createAccurateImageBody com u i t m img).1.parts =
      (centeredParts img).map (fun p =>
        (p.1 - (com (centeredParts img)).1, p.2 - (com (centeredParts img)).2)) := by
  have hne : (includedCellPositions img).isEmpty = false := by
    simpa [List.isEmpty_iff] using h
  refine ⟨?_, ?_, ?_⟩ <;>
    simp [createAccurateImageBody, hne, bodyCreate, bodyTranslate, centeredParts,
      geometricCenter, sub_eq_add_neg]

/-- Witness for C1: the single-cell 4×4 opaque image, with an engine that
reports center of mass (5, 7); the finished body sits at the origin, carries
`renderOffset = (0, 0)` (the geometric center), and its one part has been
shifted by minus the reported center of mass. -/
theorem createAccurateImageBody_centers_witness :
    includedCellPositions img4W ≠ [] ∧
    ((createAccurateImageBody (fun _ => ((5 : ℚ), (7 : ℚ))) true true false
        "auto" img4W).1.position = (0, 0) ∧
      (createAccurateImageBody (fun _ => ((5 : ℚ), (7 : ℚ))) true true false
        "auto" img4W).1.renderOffset =
        some (((includedCellPositions img4W).map Prod.fst).sum /
                ((includedCellPositions img4W).length : ℚ),
              ((includedCellPositions img4W).map Prod.snd).sum /
                ((includedCellPositions img4W).length : ℚ)) ∧
      (createAccurateImageBody (fun _ => ((5 : ℚ), (7 : ℚ))) true true false
        "auto" img4W).1.parts =
        (centeredParts img4W).map (fun p =>
          (p.1 - ((fun (_ : List (ℚ × ℚ)) => ((5 : ℚ), (7 : ℚ)))
              (centeredParts img4W)).1,
           p.2 - ((fun (_ : List (ℚ × ℚ)) => ((5 : ℚ), (7 : ℚ)))
              (centeredParts img4W)).2))) := by
  refine ⟨by with_unfolding_all decide, createAccurateImageBody_centers _ true
    true false "auto" img4W (by with_unfolding_all decide)⟩

/-- C2: a grid cell is included as a collision primitive iff it contains at
least one solid pixel and its solid-pixel occupancy ratio exceeds 0.70, and
each included primitive's local position is its cell position (cell start plus
half a cell) relative to the sprite's geometric center `(width/2, height/2)`. -/
theorem cellRecords_spec (img : ImageData) :
    (∀ c ∈ cellRecords img,
      (c.included = true ↔
        ((∃ p ∈ cellPixels img.width img.height c.gx c.gy,
            isNonWhitePixel img (p.1 : ℤ) (p.2 : ℤ) (img.width : ℤ)
              (img.height : ℤ) = true) ∧
          (7 : ℚ) / 10 < c.ratio))) ∧
    includedCellPositions img =
      ((cellRecords img).filter (fun c => c.included)).map
        (fun c => (((c.gx : ℚ) + (gridSize : ℚ) / 2) - (img.width : ℚ) / 2,
                   ((c.gy : ℚ) + (gridSize : ℚ) / 2) - (img.height : ℚ) / 2)) := by
  constructor
  · intro c hc
    simp only [cellRecords, List.mem_flatMap, List.mem_map] at hc
    obtain ⟨gy, _, gx, _, rfl⟩ := hc
    show (mkCellRecord img gx gy).included = true ↔ _
    have hratio : (mkCellRecord img gx gy).ratio =
        (if 0 < totalPx img.width img.height gx gy then
          (solidCount img gx gy : ℚ) / (totalPx img.width img.height gx gy : ℚ)
        else 0) := rfl
    have hsolid : (solidCount img gx gy ≠ 0) ↔
        (∃ p ∈ cellPixels img.width img.height gx gy,
          isNonWhitePixel img (p.1 : ℤ) (p.2 : ℤ) (img.width : ℤ)
            (img.height : ℤ) = true) := by
      rw [← List.countP_pos_iff]
      · exact ⟨Nat.pos_of_ne_zero, Nat.pos_iff_ne_zero.mp⟩
    constructor
    · intro h
      simp only [mkCellRecord, Bool.and_eq_true, decide_eq_true_eq] at h
      exact ⟨hsolid.mp h.1, h.2⟩
    · intro h
      simp only [mkCellRecord, Bool.and_eq_true, decide_eq_true_eq]
      exact ⟨hsolid.mpr h.1, h.2⟩
  · unfold includedCellPositions
    apply List.map_congr_left
    intro c _
    refine Prod.ext ?_ ?_ <;> ring

/-- Witness for C2 at the single cell of the 4×4 opaque image: the cell is
included, it contains a solid pixel, and its ratio 1 exceeds 0.70. -/
theorem cellRecords_spec_witness :
    mkCellRecord img4W 0 0 ∈ cellRecords img4W ∧
    ((mkCellRecord img4W 0 0).included = true ↔
      ((∃ p ∈ cellPixels img4W.width img4W.height (mkCellRecord img4W 0 0).gx
          (mkCellRecord img4W 0 0).gy,
          isNonWhitePixel img4W (p.1 : ℤ) (p.2 : ℤ) (img4W.width : ℤ)
            (img4W.height : ℤ) = true) ∧
        (7 : ℚ) / 10 < (mkCellRecord img4W 0 0).ratio)) :=
  ⟨by with_unfolding_all decide,
   (cellRecords_spec img4W).1 (mkCellRecord img4W 0 0)
     (by with_unfolding_all decide)⟩

/-- C4 (code slip): the collision-mode switch has no effect on the solidity
decision.  `decideUseAlpha` (game.js 899-904) is computed and honours the
forced mode, but its result is only stored in the `lastCollisionGrid` debug
record; `isNonWhitePixel` (game.js 1086-1092) always classifies by alpha, so
the body and the cell grid are identical under every mode.  In particular, on
a pure-white fully-opaque image, forced `"rgb"` mode still marks every cell
solid (an RGB near-white heuristic would mark none), even though the debug
flag duly switches to `useAlpha = false`. -/
theorem createAccurateImageBody_mode_independent :
    (∀ (com : List (ℚ × ℚ) → ℚ × ℚ) (u i t : Bool) (m m' : String)
        (img : ImageData),
      (createAccurateImageBody com u i t m img).1 =
          (createAccurateImageBody com u i t m' img).1 ∧
        (createAccurateImageBody com u i t m img).2.cells =
          (createAccurateImageBody com u i t m' img).2.cells) ∧
    decideUseAlpha true false false "rgb" = false ∧
    decideUseAlpha true false false "alpha" = true ∧
    (createAccurateImageBody (fun _ => (0, 0)) true false false "rgb"
        img4W).2.cells =
      (createAccurateImageBody (fun _ => (0, 0)) true false false "alpha"
        img4W).2.cells ∧
    includedCellPositions img4W ≠ [] := by
  refine ⟨?_, rfl, rfl, ?_, by with_unfolding_all decide⟩
  · intro com u i t m m' img
    unfold createAccurateImageBody
    by_cases h : (includedCellPositions img).isEmpty <;> simp [h]
  · unfold createAccurateImageBody
    by_cases h : (includedCellPositions img4W).isEmpty <;> simp [h]

/-- C9: from a live state in phase `'single'`, the first marble-in-cup event
awards the score, marks the game over and moves the phase to `'final'`; every
subsequent marble-in-cup event leaves the state unchanged, however many
occur. -/
theorem marbleInCup_single_to_final (s : GameState)
    (hphase : s.phase = "single") (hgo : s.gameOver = false) :
    (marbleInCup s).phase = "final" ∧
    (marbleInCup s).gameOver = true ∧
    (marbleInCup s).score = s.score + 10 ∧
    ∀ n, marbleInCup^[n] (marbleInCup s) = marbleInCup s := by
  have hstep : marbleInCup s =
      { score := s.score + 10, targetMarbleCount := 0,
        gameOver := true, phase := "final" } := by
    simp [marbleInCup, hphase, hgo]
  have hfix : marbleInCup (marbleInCup s) = marbleInCup s := by
    rw [hstep]
    simp [marbleInCup]
  refine ⟨by rw [hstep], by rw [hstep], by rw [hstep], ?_⟩
  intro n
  induction n with
  | zero => rfl
  | succ n ih => rw [Function.iterate_succ_apply, hfix, ih]

/-- Witness for C9 at the constructor's initial state. -/
theorem marbleInCup_single_to_final_witness :
    initialGameState.phase = "single" ∧ initialGameState.gameOver = false ∧
    ((marbleInCup initialGameState).phase = "final" ∧
      (marbleInCup initialGameState).gameOver = true ∧
      (marbleInCup initialGameState).score = initialGameState.score + 10 ∧
      ∀ n, marbleInCup^[n] (marbleInCup initialGameState) =
        marbleInCup initialGameState) :=
  ⟨rfl, rfl, marbleInCup_single_to_final initialGameState rfl rfl⟩

/-- Setting a list entry to 0 keeps positions that already read 0 (or the
written position itself) at 0 under `getD`. -/
theorem getD_set_zero (d : List ℕ) (i j : ℕ)
    (h : d.getD j 0 = 0 ∨ j = i) : (d.set i 0).getD j 0 = 0 := by
  have hlen : (d.set i 0).length = d.length := List.length_set ..
  rcases h with h | rfl
  · rcases eq_or_ne j i with rfl | hne
    · rcases Nat.lt_or_ge j d.length with hlt | hge
      · simp [List.getD_eq_getElem?_getD, List.getElem?_set_self, hlt]
      · have hge2 : (d.set j 0).length ≤ j := by omega
        simp [List.getD_eq_getElem?_getD, List.getElem?_eq_none hge2]
    · simpa [List.getD_eq_getElem?_getD, List.getElem?_set_ne (Ne.symm hne)]
        using h
  · rcases Nat.lt_or_ge j d.length with hlt | hge
    · simp [List.getD_eq_getElem?_getD, List.getElem?_set_self, hlt]
    · have hge2 : (d.set j 0).length ≤ j := by omega
      simp [List.getD_eq_getElem?_getD, List.getElem?_eq_none hge2]

/-- Setting a list entry leaves every other position unchanged under `getD`. -/
theorem getD_set_ne (d : List ℕ) (a : ℕ) (i j : ℕ) (h : i ≠ j) :
    (d.set i a).getD j 0 = d.getD j 0 := by
  simp [List.getD_eq_getElem?_getD, List.getElem?_set_ne h]

/-- The first-pass fold leaves every non-alpha byte unchanged, whatever the
pixel list. -/
theorem keyPass1_fold_getD (img : ImageData) (tol : ℚ) (j : ℕ)
    (hj : j % 4 ≠ 3) (l : List ℕ) :
    ∀ d : List ℕ,
      (l.foldl (fun d p =>
        if makeTransparent img tol p then setAlpha0 d p else d) d).getD j 0 =
        d.getD j 0 := by
  induction l with
  | nil => intro d; rfl
  | cons p l ih =>
    intro d
    rw [List.foldl_cons, ih]
    by_cases h : makeTransparent img tol p
    · have hne : 4 * p + 3 ≠ j := by omega
      rw [if_pos h]
      exact getD_set_ne d 0 (4 * p + 3) j hne
    · rw [if_neg h]

/-- The first-pass fold preserves the array length. -/
theorem keyPass1_fold_length (img : ImageData) (tol : ℚ) (l : List ℕ) :
    ∀ d : List ℕ,
      (l.foldl (fun d p =>
        if makeTransparent img tol p then setAlpha0 d p else d) d).length =
        d.length := by
  induction l with
  | nil => intro d; rfl
  | cons p l ih =>
    intro d
    rw [List.foldl_cons, ih]
    by_cases h : makeTransparent img tol p <;> simp [h, setAlpha0]

/-- The flood-fill loop leaves every non-alpha byte unchanged. -/
theorem floodLoop_getD (img : ImageData) (tol : ℚ) (j : ℕ) (hj : j % 4 ≠ 3) :
    ∀ (fuel : ℕ) (d : List ℕ) (q : List (ℤ × ℤ)) (v : List Bool),
      (floodLoop img tol fuel d q v).getD j 0 = d.getD j 0 := by
  intro fuel
  induction fuel with
  | zero => intro d q v; rfl
  | succ fuel ih =>
    intro d q v
    match q with
    | [] => rfl
    | (x, y) :: q =>
      rw [floodLoop]
      split
      · exact ih d q v
      · split
        · exact ih d q v
        · split
          · rw [ih]
            have hne : ((y * (img.width : ℤ) + x).toNat) * 4 + 3 ≠ j := by omega
            exact getD_set_ne _ _ _ _ hne
          · exact ih d q _

/-- The flood-fill loop preserves the array length. -/
theorem floodLoop_length (img : ImageData) (tol : ℚ) :
    ∀ (fuel : ℕ) (d : List ℕ) (q : List (ℤ × ℤ)) (v : List Bool),
      (floodLoop img tol fuel d q v).length = d.length := by
  intro fuel
  induction fuel with
  | zero => intro d q v; rfl
  | succ fuel ih =>
    intro d q v
    match q with
    | [] => rfl
    | (x, y) :: q =>
      rw [floodLoop]
      split
      · exact ih d q v
      · split
        · exact ih d q v
        · split
          · rw [ih]
            exact List.length_set ..
          · exact ih d q _

/-- C3: the background-keying function returns a canvas of identical
dimensions whose R, G and B bytes all equal the input's; only alpha bytes are
ever modified. -/
theorem keyWhiteToAlpha_preserves_rgb (img : ImageData) (tolerance : ℚ) :
    (keyWhiteToAlpha img tolerance).width = img.width ∧
    (keyWhiteToAlpha img tolerance).height = img.height ∧
    (keyWhiteToAlpha img tolerance).data.length = img.data.length ∧
    ∀ j, j % 4 ≠ 3 →
      (keyWhiteToAlpha img tolerance).data.getD j 0 = img.data.getD j 0 := by
  refine ⟨rfl, rfl, ?_, ?_⟩
  · show (floodLoop img tolerance _ (keyPass1 img tolerance) _ _).length = _
    rw [floodLoop_length, keyPass1, keyPass1_fold_length]
  · intro j hj
    show (floodLoop img tolerance _ (keyPass1 img tolerance) _ _).getD j 0 = _
    rw [floodLoop_getD img tolerance j hj, keyPass1, keyPass1_fold_getD img tolerance j hj]

/-- Witness for C3 on the 1×1 white image at byte 0 (a red channel). -/
theorem keyWhiteToAlpha_preserves_rgb_witness :
    ((0 : ℕ) % 4 ≠ 3) ∧
      (keyWhiteToAlpha img11W 48).data.getD 0 0 = img11W.data.getD 0 0 :=
  ⟨by norm_num, (keyWhiteToAlpha_preserves_rgb img11W 48).2.2.2 0 (by norm_num)⟩

/-- The first-pass fold never raises an alpha byte from 0: every write it
performs writes 0. -/
theorem keyPass1_fold_alpha_zero (img : ImageData) (tol : ℚ) (l : List ℕ)
    (p : ℕ) :
    ∀ d : List ℕ, d.getD (4 * p + 3) 0 = 0 →
      (l.foldl (fun d q =>
        if makeTransparent img tol q then setAlpha0 d q else d) d).getD
          (4 * p + 3) 0 = 0 := by
  induction l with
  | nil => intro d h; exact h
  | cons q l ih =>
    intro d h
    rw [List.foldl_cons]
    by_cases hq : makeTransparent img tol q
    · rw [if_pos hq]
      exact ih _ (getD_set_zero d (4 * q + 3) (4 * p + 3) (Or.inl h))
    · rw [if_neg hq]
      exact ih d h

/-- The first-pass fold clears the alpha byte of every listed pixel whose
decision is true. -/
theorem keyPass1_fold_clears (img : ImageData) (tol : ℚ) (l : List ℕ)
    (p : ℕ) (hp : p ∈ l) (hmk : makeTransparent img tol p = true) :
    ∀ d : List ℕ,
      (l.foldl (fun d q =>
        if makeTransparent img tol q then setAlpha0 d q else d) d).getD
          (4 * p + 3) 0 = 0 := by
  induction l with
  | nil => cases hp
  | cons q l ih =>
    intro d
    rw [List.foldl_cons]
    rcases List.mem_cons.mp hp with rfl | hpl
    · rw [if_pos hmk]
      exact keyPass1_fold_alpha_zero img tol l p _
        (getD_set_zero d (4 * p + 3) (4 * p + 3) (Or.inr rfl))
    · exact ih hpl _

/-- The flood-fill loop never raises an alpha byte from 0. -/
theorem floodLoop_alpha_zero (img : ImageData) (tol : ℚ) (p : ℕ) :
    ∀ (fuel : ℕ) (d : List ℕ) (q : List (ℤ × ℤ)) (v : List Bool),
      d.getD (4 * p + 3) 0 = 0 →
      (floodLoop img tol fuel d q v).getD (4 * p + 3) 0 = 0 := by
  intro fuel
  induction fuel with
  | zero => intro d q v h; exact h
  | succ fuel ih =>
    intro d q v h
    match q with
    | [] => exact h
    | (x, y) :: q =>
      rw [floodLoop]
      split
      · exact ih d q v h
      · split
        · exact ih d q v h
        · split
          · refine ih _ _ _ ?_
            exact getD_set_zero d _ _ (Or.inl h)
          · exact ih d q _ h

/-- C7: on an image whose every pixel is pure white (R=G=B=255), for any
tolerance in [0, 255] the keying function returns a canvas of identical
dimensions in which every pixel's alpha is 0. -/
theorem keyWhiteToAlpha_all_white (img : ImageData) (tolerance : ℚ)
    (h0 : 0 ≤ tolerance) (h255 : tolerance ≤ 255)
    (hw : ∀ p, p < img.width * img.height →
      img.data.getD (4 * p) 0 = 255 ∧ img.data.getD (4 * p + 1) 0 = 255 ∧
        img.data.getD (4 * p + 2) 0 = 255) :
    (keyWhiteToAlpha img tolerance).width = img.width ∧
    (keyWhiteToAlpha img tolerance).height = img.height ∧
    ∀ p, p < img.width * img.height →
      (keyWhiteToAlpha img tolerance).data.getD (4 * p + 3) 0 = 0 := by
  refine ⟨rfl, rfl, ?_⟩
  intro p hp
  have hmk : makeTransparent img tolerance p = true := by
    obtain ⟨hr, hg, hb⟩ := hw p hp
    have hct : (0 : ℚ) ≤ clampTol tolerance := le_max_left 0 _
    simp only [makeTransparent, hr, hg, hb, decide_eq_true_eq]
    left
    norm_num
    linarith
  show (floodLoop img tolerance _ (keyPass1 img tolerance) _ _).getD
    (4 * p + 3) 0 = 0
  refine floodLoop_alpha_zero img tolerance p _ _ _ _ ?_
  exact keyPass1_fold_clears img tolerance _ p (List.mem_range.mpr hp) hmk
    img.data

/-- Witness for C7 on the 1×1 white image with the default tolerance 48. -/
theorem keyWhiteToAlpha_all_white_witness :
    ((0 : ℚ) ≤ 48) ∧ ((48 : ℚ) ≤ 255) ∧
    (∀ p, p < img11W.width * img11W.height →
      img11W.data.getD (4 * p) 0 = 255 ∧ img11W.data.getD (4 * p + 1) 0 = 255 ∧
        img11W.data.getD (4 * p + 2) 0 = 255) ∧
    (keyWhiteToAlpha img11W 48).data.getD (4 * 0 + 3) 0 = 0 :=
  ⟨by norm_num, by norm_num, by decide,
   (keyWhiteToAlpha_all_white img11W 48 (by norm_num) (by norm_num)
     (by decide)).2.2 0 (by decide)⟩

/-- The index returned by `maxDistLoop` is the initial one or one of the
scanned indices. -/
theorem maxDistLoop_snd (f : ℕ → ℚ) :
    ∀ (l : List ℕ) (acc : ℚ × ℕ),
      (maxDistLoop f l acc).2 = acc.2 ∨ (maxDistLoop f l acc).2 ∈ l := by
  intro l
  induction l with
  | nil => intro acc; exact Or.inl rfl
  | cons i is ih =>
    intro acc
    rw [maxDistLoop]
    by_cases hc : acc.1 < f i
    · rw [if_pos hc]
      rcases ih (f i, i) with h | h
      · exact Or.inr (by rw [h]; exact List.mem_cons_self i is)
      · exact Or.inr (List.mem_cons_of_mem i h)
    · rw [if_neg hc]
      rcases ih acc with h | h
      · exact Or.inl h
      · exact Or.inr (List.mem_cons_of_mem i h)

/-- The scanned index of the Douglas-Peucker split is at most
`points.length - 2`. -/
theorem dpSplitIndex_le (dist : ℚ × ℚ → ℚ × ℚ → ℚ × ℚ → ℚ)
    (points : List (ℚ × ℚ)) :
    (dpSplit dist points).2 ≤ points.length - 2 := by
  unfold dpSplit
  rcases maxDistLoop_snd (fun i => dist (points.getD i (0, 0))
      (points.getD 0 (0, 0)) (points.getD (points.length - 1) (0, 0)))
      ((List.range (points.length - 2)).map (· + 1)) (0, 0) with h | h
  · rw [h]; exact Nat.zero_le _
  · simp only [List.mem_map, List.mem_range] at h
    obtain ⟨i, hi, hie⟩ := h
    omega

/-- Douglas-Peucker output length is at least 2 when the input has at least
2 points, whatever the fuel. -/
theorem douglasPeuckerAux_two_le (dist : ℚ × ℚ → ℚ × ℚ → ℚ × ℚ → ℚ) :
    ∀ (fuel : ℕ) (points : List (ℚ × ℚ)) (tolerance : ℚ),
      2 ≤ points.length →
      2 ≤ (douglasPeuckerAux dist fuel points tolerance).length := by
  intro fuel
  induction fuel with
  | zero => intro points tol h; exact h
  | succ fuel ih =>
    intro points tol h
    rw [douglasPeuckerAux]
    split
    · exact h
    · rename_i hlen
      push_neg at hlen
      split
      · rw [List.length_append]
        have hmi := dpSplitIndex_le dist points
        have hdrop : 2 ≤ (points.drop ((dpSplit dist points).2)).length := by
          rw [List.length_drop]
          omega
        have := ih _ tol hdrop
        omega
      · simp

/-- Douglas-Peucker never increases the point count, whatever the fuel. -/
theorem douglasPeuckerAux_length_le (dist : ℚ × ℚ → ℚ × ℚ → ℚ × ℚ → ℚ) :
    ∀ (fuel : ℕ) (points : List (ℚ × ℚ)) (tolerance : ℚ),
      (douglasPeuckerAux dist fuel points tolerance).length ≤ points.length := by
  intro fuel
  induction fuel with
  | zero => intro points tol; exact Nat.le_refl _
  | succ fuel ih =>
    intro points tol
    rw [douglasPeuckerAux]
    split
    · exact Nat.le_refl _
    · rename_i hlen
      push_neg at hlen
      split
      · rw [List.length_append, List.length_dropLast]
        have h1 := ih (points.take ((dpSplit dist points).2 + 1)) tol
        have h2 := ih (points.drop ((dpSplit dist points).2)) tol
        rw [List.length_take] at h1
        rw [List.length_drop] at h2
        omega
      · simp only [List.length_cons, List.length_nil]
        omega

/-- `getD 0` of a nonempty list is its head. -/
theorem head?_eq_getD_zero (l : List (ℚ × ℚ)) (h : l ≠ []) :
    l.head? = some (l.getD 0 (0, 0)) := by
  cases l with
  | nil => exact absurd rfl h
  | cons a t => rfl

/-- `getD (length - 1)` of a nonempty list is its last element. -/
theorem getLast?_eq_getD (l : List (ℚ × ℚ)) (h : l ≠ []) :
    l.getLast? = some (l.getD (l.length - 1) (0, 0)) := by
  have hlt : l.length - 1 < l.length := by
    have := List.length_pos.mpr h
    omega
  rw [List.getLast?_eq_getElem?, List.getD_eq_getElem?_getD,
    List.getElem?_eq_getElem hlt]
  rfl

/-- A list of length at most 1 has an empty `dropLast`. -/
theorem dropLast_eq_nil_of_le_one (l : List (ℚ × ℚ)) (h : l.length ≤ 1) :
    l.dropLast = [] := by
  cases l with
  | nil => rfl
  | cons a t =>
    cases t with
    | nil => rfl
    | cons b t => simp at h

/-- `dropLast` keeps the head of a list with at least two elements. -/
theorem head?_dropLast (l : List (ℚ × ℚ)) (h : 2 ≤ l.length) :
    l.dropLast.head? = l.head? := by
  cases l with
  | nil => simp at h
  | cons a t =>
    cases t with
    | nil => simp at h
    | cons b t => simp

/-- `take n` with `n ≥ 1` keeps the head. -/
theorem head?_take (l : List (ℚ × ℚ)) (n : ℕ) (h : 1 ≤ n) :
    (l.take n).head? = l.head? := by
  cases l with
  | nil => simp
  | cons a t =>
    cases n with
    | zero => omega
    | succ n => simp

/-- A nonempty `drop` keeps the last element. -/
theorem getLast?_drop_of_ne_nil (l : List (ℚ × ℚ)) (n : ℕ)
    (h : l.drop n ≠ []) : (l.drop n).getLast? = l.getLast? := by
  conv_rhs => rw [← List.take_append_drop n l]
  rw [List.getLast?_append_of_ne_nil _ h]

/-- Douglas-Peucker keeps the head of the input, whatever the fuel. -/
theorem douglasPeuckerAux_head? (dist : ℚ × ℚ → ℚ × ℚ → ℚ × ℚ → ℚ) :
    ∀ (fuel : ℕ) (points : List (ℚ × ℚ)) (tolerance : ℚ), points ≠ [] →
      (douglasPeuckerAux dist fuel points tolerance).head? = points.head? := by
  intro fuel
  induction fuel with
  | zero => intro points tol h; rfl
  | succ fuel ih =>
    intro points tol h
    rw [douglasPeuckerAux]
    split
    · rfl
    · rename_i hlen
      push_neg at hlen
      split
      · rcases Nat.eq_zero_or_pos (dpSplit dist points).2 with hmi | hmi
        · rw [hmi]
          have hleft : (douglasPeuckerAux dist fuel (points.take (0 + 1))
              tol).dropLast = [] := by
            refine dropLast_eq_nil_of_le_one _ ?_
            have := douglasPeuckerAux_length_le dist fuel (points.take (0 + 1)) tol
            have := List.length_take_le (0 + 1) points
            omega
          rw [hleft, List.nil_append, List.drop_zero]
          exact ih points tol h
        · have hmin : 2 ≤ (points.take ((dpSplit dist points).2 + 1)).length := by
            rw [List.length_take]
            omega
          have hL2 : 2 ≤ (douglasPeuckerAux dist fuel
              (points.take ((dpSplit dist points).2 + 1)) tol).length :=
            douglasPeuckerAux_two_le dist fuel _ tol hmin
          have hdl : 1 ≤ (douglasPeuckerAux dist fuel
              (points.take ((dpSplit dist points).2 + 1)) tol).dropLast.length := by
            rw [List.length_dropLast]
            omega
          rw [List.head?_append_of_ne_nil _ (List.length_pos.mp (by omega))]
          rw [head?_dropLast _ hL2]
          rw [ih _ tol (List.length_pos.mp (by rw [List.length_take]; omega))]
          exact head?_take points _ (by omega)
      · rw [head?_eq_getD_zero points h]
        rfl

/-- Douglas-Peucker keeps the last element of the input, whatever the fuel. -/
theorem douglasPeuckerAux_getLast? (dist : ℚ × ℚ → ℚ × ℚ → ℚ × ℚ → ℚ) :
    ∀ (fuel : ℕ) (points : List (ℚ × ℚ)) (tolerance : ℚ), points ≠ [] →
      (douglasPeuckerAux dist fuel points tolerance).getLast? =
        points.getLast? := by
  intro fuel
  induction fuel with
  | zero => intro points tol h; rfl
  | succ fuel ih =>
    intro points tol h
    rw [douglasPeuckerAux]
    split
    · rfl
    · rename_i hlen
      push_neg at hlen
      split
      · have hmi := dpSplitIndex_le dist points
        have hdropn : 2 ≤ (points.drop ((dpSplit dist points).2)).length := by
          rw [List.length_drop]
          omega
        have hR2 : 2 ≤ (douglasPeuckerAux dist fuel
            (points.drop ((dpSplit dist points).2)) tol).length :=
          douglasPeuckerAux_two_le dist fuel _ tol hdropn
        rw [List.getLast?_append_of_ne_nil _ (List.length_pos.mp (by omega))]
        rw [ih _ tol (List.length_pos.mp (by rw [List.length_drop]; omega))]
        exact getLast?_drop_of_ne_nil points _
          (List.length_pos.mp (by rw [List.length_drop]; omega))
      · rw [getLast?_eq_getD points h]
        rfl

/-- C6: Douglas-Peucker (with the squared-distance embedding of the source's
`pointToLineDistance`) never increases the point count and never removes the
first or the last point of the input sequence, for every input and every
tolerance. -/
theorem douglasPeucker_spec (points : List (ℚ × ℚ)) (tolerance : ℚ) :
    (douglasPeucker pointToLineDistanceSq points tolerance).length ≤
      points.length ∧
    (douglasPeucker pointToLineDistanceSq points tolerance).head? =
      points.head? ∧
    (douglasPeucker pointToLineDistanceSq points tolerance).getLast? =
      points.getLast? := by
  rcases eq_or_ne points [] with rfl | h
  · exact ⟨Nat.le_refl _, rfl, rfl⟩
  · exact ⟨douglasPeuckerAux_length_le _ _ points tolerance,
      douglasPeuckerAux_head? _ _ points tolerance h,
      douglasPeuckerAux_getLast? _ _ points tolerance h⟩

/-- Counterexample to C5 as stated: on the all-solid 3×1 image the tracer
finds a contour of 4 points (at least 3, so no bounding-box failover), yet
returns only 2 vertices, because the contour is collinear and Douglas-Peucker
collapses it to its endpoints. -/
theorem traceVerticesFromCanvas_counterexample :
    (traceVerticesFromCanvas img31).length = 2 := by
  with_unfolding_all decide

/-- C5 as amended: the contour tracer always returns at least 2 vertices —
the 4-vertex bounding-box rectangle when no solid pixel exists or the walk
yields fewer than 3 contour points, and otherwise the Douglas-Peucker
simplification of the (at least 3 point) contour, which keeps at least its 2
endpoints but can collapse to exactly 2 vertices. -/
theorem traceVerticesFromCanvas_two_le (img : ImageData) :
    2 ≤ (traceVerticesFromCanvas img).length := by
  unfold traceVerticesFromCanvas
  cases hh : (solidCoords img).head? with
  | none => simp [createBoundingBoxVertices]
  | some s =>
    simp only []
    split
    · simp [createBoundingBoxVertices]
    · rename_i hlen
      push_neg at hlen
      refine douglasPeuckerAux_two_le _ _ _ _ ?_
      rw [List.length_map]
      omega

/-- The bounding-box failover branch: on a 1×1 fully transparent image (no
solid pixel) the tracer returns the 4-vertex rectangle. -/
theorem traceBoundingBoxFallback_length :
    (traceVerticesFromCanvas ⟨1, 1, [0, 0, 0, 0]⟩).length = 4 := by
  with_unfolding_all decide

/-- C10 as amended, part 1: every step of the Moore walk either stops having
found no solid pixel among the 8 neighbours, or moves to a solid 8-neighbour
(recording the direction it moved in). -/
theorem mooreStep_sound (img : ImageData) (w h : ℕ) (x y : ℤ) (d : ℕ) :
    (mooreStep img w h x y d).elim
      (((List.range 8).all (fun cd =>
        !(isNonWhitePixel img (x + (mooreMoves.getD cd (0, 0)).1)
          (y + (mooreMoves.getD cd (0, 0)).2) (w : ℤ) (h : ℤ)))) = true)
      (fun s =>
        isNonWhitePixel img s.1 s.2.1 (w : ℤ) (h : ℤ) = true ∧
        s.2.2 < 8 ∧
        s.1 = x + (mooreMoves.getD s.2.2 (0, 0)).1 ∧
        s.2.1 = y + (mooreMoves.getD s.2.2 (0, 0)).2) := by
  cases hstep : mooreStep img w h x y d with
  | none =>
    rw [Option.elim]
    rw [List.all_eq_true]
    intro cd hcd
    rw [List.mem_range] at hcd
    rw [mooreStep, List.findSome?_eq_none_iff] at hstep
    have hi : (cd + 8 - (d + 4 + 1) % 8) % 8 ∈ List.range 8 :=
      List.mem_range.mpr (Nat.mod_lt _ (by omega))
    have h8 : (d + 4 + (cd + 8 - (d + 4 + 1) % 8) % 8 + 1) % 8 = cd := by
      omega
    have hnone := hstep _ hi
    rw [h8] at hnone
    cases hb : isNonWhitePixel img (x + (mooreMoves.getD cd (0, 0)).1)
        (y + (mooreMoves.getD cd (0, 0)).2) (w : ℤ) (h : ℤ) with
    | false => rfl
    | true => rw [if_pos hb] at hnone; cases hnone
  | some s =>
    rw [Option.elim]
    rw [mooreStep] at hstep
    obtain ⟨i, hi, hfi⟩ := List.exists_of_findSome?_eq_some hstep
    by_cases hsolid : isNonWhitePixel img
        (x + (mooreMoves.getD ((d + 4 + i + 1) % 8) (0, 0)).1)
        (y + (mooreMoves.getD ((d + 4 + i + 1) % 8) (0, 0)).2) (w : ℤ) (h : ℤ)
    · rw [if_pos hsolid] at hfi
      obtain rfl := (Option.some_inj.mp hfi).symm
      exact ⟨hsolid, Nat.mod_lt _ (by omega), rfl, rfl⟩
    · rw [if_neg hsolid] at hfi
      cases hfi

/-- Unfolding one non-exiting iteration of the walk: when the step moves to a
position other than the start, the loop recurses with the current position
appended. -/
theorem mooreLoop_succ_of_step (img : ImageData) (w h : ℕ) (sx sy : ℤ)
    (fuel : ℕ) (x y : ℤ) (dir : ℕ) (acc : List (ℤ × ℤ)) (nx ny : ℤ) (nd : ℕ)
    (hstep : mooreStep img w h x y dir = some (nx, ny, nd))
    (hne : ¬(nx = sx ∧ ny = sy)) :
    mooreLoop img w h sx sy (fuel + 1) x y dir acc =
      mooreLoop img w h sx sy fuel nx ny nd ((x, y) :: acc) := by
  rw [mooreLoop, hstep]
  show (if nx = sx ∧ ny = sy then (((x, y) :: acc).reverse, true)
    else mooreLoop img w h sx sy fuel nx ny nd ((x, y) :: acc)) = _
  rw [if_neg hne]

/-- From the looping pair of states `(0,0) dir W` and `(1,0) dir E` on the
3×1 counterexample image, the walk never exits by its own conditions. -/
theorem mooreLoop_cycle (fuel : ℕ) :
    ∀ acc : List (ℤ × ℤ),
      (mooreLoop img31s 3 1 2 0 fuel 0 0 6 acc).2 = false ∧
      (mooreLoop img31s 3 1 2 0 fuel 1 0 2 acc).2 = false := by
  induction fuel with
  | zero => intro acc; exact ⟨rfl, rfl⟩
  | succ fuel ih =>
    intro acc
    have h1 : mooreStep img31s 3 1 0 0 6 = some (1, 0, 2) := by decide
    have h2 : mooreStep img31s 3 1 1 0 2 = some (0, 0, 6) := by decide
    constructor
    · rw [mooreLoop_succ_of_step img31s 3 1 2 0 fuel 0 0 6 acc 1 0 2 h1
        (by simp)]
      exact (ih _).2
    · rw [mooreLoop_succ_of_step img31s 3 1 2 0 fuel 1 0 2 acc 0 0 6 h2
        (by simp)]
      exact (ih _).1

/-- Counterexample to C10 as stated: on the 3×1 image whose third pixel is
transparent, the walk started at `(2, 0)` (a non-solid pixel) steps onto the
two-pixel solid run and then cycles between `(0,0)` and `(1,0)` forever: no
fuel makes it exit, i.e. the source's `do/while` loop never terminates. -/
theorem mooreTrace_not_terminating : ¬ mooreTraceReturns img31s 3 1 2 0 := by
  rintro ⟨fuel, hf⟩
  have hs1 : mooreStep img31s 3 1 2 0 0 = some (1, 0, 6) := by decide
  have hs2 : mooreStep img31s 3 1 1 0 6 = some (0, 0, 6) := by decide
  match fuel with
  | 0 => exact Bool.false_ne_true hf
  | 1 =>
    rw [mooreLoop_succ_of_step img31s 3 1 2 0 0 2 0 0 [] 1 0 6 hs1
      (by simp)] at hf
    exact Bool.false_ne_true hf
  | (f + 1) + 1 =>
    rw [mooreLoop_succ_of_step img31s 3 1 2 0 (f + 1) 2 0 0 [] 1 0 6 hs1
      (by simp)] at hf
    rw [mooreLoop_succ_of_step img31s 3 1 2 0 f 1 0 6 _ 0 0 6 hs2
      (by simp)] at hf
    rw [(mooreLoop_cycle f _).1] at hf
    exact Bool.false_ne_true hf

end Curiosity
